import Mathlib

/-!
Verification of the lighthouse treemap viewer
(`lighthouse-treemap/app/src/main.js`).

The data model and the operations are shallowly embedded from the source:
a treemap `Node` carries a name, a byte total, an optional unused-byte
total and an optional child list (an *empty* child list is distinct from
an absent one, mirroring the JavaScript truthiness of `node.children`,
where `[]` is truthy). A `RootNodeContainer` pairs a name with one node.
-/

/-- A treemap node, embedded from the `Node` type of
`lighthouse-core/audits/script-treemap-data` as used by `main.js`:
`name` (string), `resourceBytes` (number), optional `unusedBytes`,
optional `children` array. -/
inductive Node : Type where
  | mk (name : String) (resourceBytes : Nat) (unusedBytes : Option Nat)
       (children : Option (List Node))

def Node.name : Node → String
  | .mk n _ _ _ => n

def Node.resourceBytes : Node → Nat
  | .mk _ r _ _ => r

def Node.unusedBytes : Node → Option Nat
  | .mk _ _ u _ => u

def Node.children : Node → Option (List Node)
  | .mk _ _ _ c => c

/-- `RootNodeContainer`: a named top-level resource tree. -/
structure RootNodeContainer : Type where
  name : String
  node : Node

/-- Modelled from the spec: `TreemapUtil.dfs` (the depth-first walk used by
the constructor, `show`, `updateColors` and `renderViewModeOptions`) is in
`app/src/util.js`, which is not part of this fragment. The spec describes it
as a depth-first pass visiting a node and then its children in order; we
embed it as the list of nodes in visit order. -/
def Node.dfsList : Node → List Node
  | .mk n r u none => [.mk n r u none]
  | .mk n r u (some cs) =>
      .mk n r u (some cs) :: cs.attach.flatMap (fun x => Node.dfsList x.1)
termination_by n => sizeOf n
decreasing_by
  simp_wf
  have h := List.sizeOf_lt_of_mem x.2
  omega

/-!
## The aggregator: `TreemapViewer.createRootNodeForGroup`

`main.js` lines 103-127. For the given group it maps each root-node
container either to its node (when `rootNode.node.children` is falsy,
i.e. the field is absent) or, when the group is `"scripts"` and the
`children` field is present (JavaScript: any array, even empty, is
truthy), to a fresh wrapper node named after the container; then it
returns a synthetic root named after the document URL whose byte totals
are folded over the children exactly as the two `reduce` calls do.
-/

/-- The body of the `rootNodes.map` callback in `createRootNodeForGroup`. -/
def wrapChild (group : String) (rootNode : RootNodeContainer) : Node :=
  match rootNode.node.children with
  | some _ =>
      if group = "scripts" then
        Node.mk rootNode.name rootNode.node.resourceBytes
          rootNode.node.unusedBytes (some [rootNode.node])
      else rootNode.node
  | none => rootNode.node

/-- `TreemapViewer.createRootNodeForGroup`, with the viewer state it reads
(`this.documentUrl` and `this.rootNodesByGroup[group]`) passed explicitly. -/
def createRootNodeForGroup (documentUrl : String)
    (rootNodes : List RootNodeContainer) (group : String) : Node :=
  let children := rootNodes.map (wrapChild group)
  Node.mk documentUrl
    (children.foldl (fun acc cur => cur.resourceBytes + acc) 0)
    (some (children.foldl (fun acc cur => cur.unusedBytes.getD 0 + acc) 0))
    (some children)

/-!
## Constructor validation, `main.js` lines 20-25

The constructor reads `options.lhr.audits['script-treemap-data'].details`
and throws `missing script-treemap-data` when that value is falsy or its
`treemapData` field is falsy. The LHR types are embedded only as far as
the constructor reads them; JavaScript's optional fields become `Option`.
-/

/-- `LH.Audit.Details.DebugData` as read by the constructor: only the
optional `treemapData` field matters. -/
structure DebugData : Type where
  treemapData : Option (List RootNodeContainer)

/-- An audit entry: only its optional `details` field is read. -/
structure AuditRecord : Type where
  details : Option DebugData

/-- `LH.Result` as read by `main.js`: `requestedUrl` and the audit map
(total per the LHR type; each entry's `details` is optional). -/
structure LHResult : Type where
  requestedUrl : String
  audits : String → AuditRecord

/-- `Treemap.Options`: in the `postMessage` path `options.lhr` may be
absent, so it is optional here. -/
structure TreemapOptions : Type where
  lhr : Option LHResult

/-- The data-validation step of the `TreemapViewer` constructor
(lines 21-25): returns the treemap data, or the thrown error message. -/
def constructorValidate (lhr : LHResult) : Except String (List RootNodeContainer) :=
  match (lhr.audits "script-treemap-data").details with
  | none => .error "missing script-treemap-data"
  | some d =>
      match d.treemapData with
      | none => .error "missing script-treemap-data"
      | some td => .ok td

/-!
## The `postMessage` handler, `main.js` lines 294-307

`init` runs only when the message's source is the opener window and the
data is an options object whose `lhr` is truthy and whose
`lhr.requestedUrl` is truthy (for a string: present and non-empty).
Window identities are modelled as natural numbers.
-/

/-- The `message` event listener: `true` iff `init(options)` is reached.
JavaScript falsiness of `lhr.requestedUrl` (a string per `LH.Result`) is
the empty string. -/
def messageHandlerInits (source opener : Nat) (data : TreemapOptions) : Bool :=
  if source ≠ opener then false
  else
    match data.lhr with
    | none => false
    | some lhr => lhr.requestedUrl ≠ ""

/-!
## The colorizer

`this.getHue = Util.stableHasher(Util.COLOR_HUES)` (line 48). The
implementation of `stableHasher` lives in `app/src/util.js`, which is not
part of this fragment, so it is modelled from the spec.
-/

/-- The internal state of the closure returned by `stableHasher`: the keys
it has been asked about, in first-seen order. -/
structure HasherState : Type where
  seen : List String

/-- The state of a freshly constructed hasher (a new viewer instance). -/
def emptyHasher : HasherState := ⟨[]⟩

/-- Modelled from the spec: `Util.stableHasher` (in `app/src/util.js`,
absent from this fragment) returns a function maintaining "a mapping from
key (group/root name) to an index into a fixed palette of hues, assigned
in first-seen order; once the palette is exhausted, subsequent unseen keys
get no color". A call returns the palette entry at the key's first-seen
index (`none` past the end of the palette) together with the updated
state. -/
def getHue (palette : List Nat) (s : HasherState) (key : String) :
    Option Nat × HasherState :=
  if key ∈ s.seen then (palette.get? (s.seen.indexOf key), s)
  else (palette.get? s.seen.length, ⟨s.seen ++ [key]⟩)

/-- The hasher state after a sequence of `getHue` calls. -/
def runHueCalls (palette : List Nat) (s : HasherState) (keys : List String) :
    HasherState :=
  keys.foldl (fun st k => (getHue palette st k).2) s

/-- The results of a sequence of `getHue` calls, in order. -/
def hueResults (palette : List Nat) (s : HasherState) :
    List String → List (Option Nat)
  | [] => []
  | k :: ks =>
      (getHue palette s k).1 :: hueResults palette (getHue palette s k).2 ks

/-- Modelled from the spec: `Util.hsl` (in `app/src/util.js`, absent from
this fragment) renders a CSS `hsl()` color string from hue, saturation and
luminance. -/
def hsl (h s l : Nat) : String :=
  "hsl(" ++ toString h ++ ", " ++ toString s ++ "%, " ++ toString l ++ "%)"

/-- The per-node color computation of `updateColors` (lines 190-209):
from the hue produced by `getHue`, the background color and text color
written to the node's DOM element. Defaults are white/black; a defined
hue gives `hsl(hue, 60, 90)` and, since the luminance 90 exceeds 50,
black text. -/
def updateColorsPaint (hue : Option Nat) : String × String :=
  match hue with
  | some h => (hsl h 60 90, if 50 < 90 then "black" else "white")
  | none => ("white", "black")

/-- The hue key chosen for a node in `updateColors` (lines 186-189): the
registered container's name when the node is in `nodeToRootNodeMap`, and
the node's own name otherwise. The `WeakMap` keys on object identity, so
it is passed as an abstract function. -/
def hueKey (rootNodeMap : Node → Option RootNodeContainer) (n : Node) :
    String :=
  match rootNodeMap n with
  | some c => c.name
  | none => n.name

/-- The registration postcondition of the constructor's walk
(lines 38-42): every node visited by the depth-first traversal of a
container's tree is mapped to that container. Nodes outside every
container tree — in particular objects allocated after the walk — are
absent from the `WeakMap`, i.e. map to `none`. -/
def RegisteredMap (containers : List RootNodeContainer)
    (m : Node → Option RootNodeContainer) : Prop :=
  ∀ c ∈ containers, ∀ n ∈ c.node.dfsList, m n = some c

/-!
## `renderViewModeOptions`, `main.js` lines 238-247

The "All" view-mode byte total: a depth-first pass over every container's
tree adding `resourceBytes` of each node without a `children` field
(`if (node.children) return` skips any node whose `children` array is
present, even empty).
-/

/-- The `bytes` accumulator computed by `renderViewModeOptions`. -/
def viewModeBytes (rootNodes : List RootNodeContainer) : Nat :=
  rootNodes.foldl
    (fun bytes c =>
      c.node.dfsList.foldl
        (fun b x => if x.children.isSome then b else b + x.resourceBytes)
        bytes)
    0

/-- The tree invariant named by the spec ("a parent's resourceBytes should
be ≥ sum of children's", here in the exact form claim C10 assumes): every
node with a `children` field has `resourceBytes` equal to the sum of its
children's. -/
def SumInvariant (n : Node) : Prop :=
  ∀ x ∈ n.dfsList, ∀ cs, x.children = some cs →
    x.resourceBytes = (cs.map Node.resourceBytes).sum

/-!
## Heap model of `createRootNodeForGroup` (frame claim)

Whether `createRootNodeForGroup` mutates its inputs is a statement about
JavaScript objects, so the function is embedded a second time against an
explicit object store: nodes are records whose `children` hold references
(indices into the store), and the two object literals the function builds
(the wrapper of the `map` callback, lines 110-115, and the returned
synthetic root, lines 121-126) become allocations. The function performs
no assignment to any existing object, which the model renders as: the
store only grows at the end.
-/

/-- A treemap node as a heap object: `children` are references into the
store. -/
structure HNode : Type where
  name : String
  resourceBytes : Nat
  unusedBytes : Option Nat
  children : Option (List Nat)

/-- The object store: reference `r` denotes `store[r]`. -/
abbrev Store := List HNode

/-- A root-node container holding a reference to its node. -/
structure HRootNodeContainer : Type where
  name : String
  node : Nat

/-- Dereferencing; a dangling reference yields a default object (the
source never creates one). -/
def lookupH (store : Store) (r : Nat) : HNode :=
  (store.get? r).getD ⟨"", 0, none, none⟩

/-- The `rootNodes.map` callback against the store: reads the container's
node and either returns it unchanged or allocates the wrapper literal of
lines 110-115. -/
def createChildH (group : String) (store : Store)
    (rootNode : HRootNodeContainer) : Store × Nat :=
  let nd := lookupH store rootNode.node
  match nd.children with
  | some _ =>
      if group = "scripts" then
        (store ++ [⟨rootNode.name, nd.resourceBytes, nd.unusedBytes,
                    some [rootNode.node]⟩],
         store.length)
      else (store, rootNode.node)
  | none => (store, rootNode.node)

/-- The `rootNodes.map` loop against the store, returning the child
references in order. -/
def createChildrenH (group : String) (store : Store) :
    List HRootNodeContainer → Store × List Nat
  | [] => (store, [])
  | c :: cs =>
      let r := createChildH group store c
      let rest := createChildrenH group r.1 cs
      (rest.1, r.2 :: rest.2)

/-- `createRootNodeForGroup` against the store: maps the containers, then
allocates the synthetic root literal of lines 121-126 with the two
`reduce` folds over the children. Returns the final store and the root's
reference. -/
def createRootNodeForGroupH (documentUrl : String) (store : Store)
    (rootNodes : List HRootNodeContainer) (group : String) : Store × Nat :=
  let res := createChildrenH group store rootNodes
  let newRoot : HNode :=
    ⟨documentUrl,
     res.2.foldl (fun acc r => (lookupH res.1 r).resourceBytes + acc) 0,
     some (res.2.foldl
       (fun acc r => (lookupH res.1 r).unusedBytes.getD 0 + acc) 0),
     some res.2⟩
  (res.1 ++ [newRoot], res.1.length)

/-!
## Basic lemmas about the embedding
-/

theorem Node.dfsList_none (nm : String) (r : Nat) (u : Option Nat) :
    (Node.mk nm r u none).dfsList = [Node.mk nm r u none] := by
  rw [Node.dfsList]

theorem Node.dfsList_some (nm : String) (r : Nat) (u : Option Nat)
    (cs : List Node) :
    (Node.mk nm r u (some cs)).dfsList
      = Node.mk nm r u (some cs) :: cs.flatMap Node.dfsList := by
  rw [Node.dfsList]
  congr 1
  conv_rhs => rw [← List.attach_map_subtype_val cs]
  rw [List.flatMap_map]

theorem Node.self_mem_dfsList (n : Node) : n ∈ n.dfsList := by
  cases n with
  | mk nm r u c =>
    cases c with
    | none => rw [Node.dfsList_none]; exact List.mem_singleton.mpr rfl
    | some cs => rw [Node.dfsList_some]; exact List.mem_cons_self _ _

theorem Node.mem_dfsList_child {x c : Node} {cs : List Node} (hc : c ∈ cs)
    (hx : x ∈ c.dfsList) (nm : String) (r : Nat) (u : Option Nat) :
    x ∈ (Node.mk nm r u (some cs)).dfsList := by
  rw [Node.dfsList_some]
  exact List.mem_cons_of_mem _ (List.mem_flatMap.mpr ⟨c, hc, hx⟩)

/-- Strong induction over nodes: to prove `P` everywhere it suffices to
prove it at each node given it for all (immediate) children. -/
theorem Node.strongInduction {P : Node → Prop}
    (h : ∀ nm r u c, (∀ cs, c = some cs → ∀ x ∈ cs, P x) → P (Node.mk nm r u c)) :
    ∀ n, P n
  | .mk nm r u c =>
    h nm r u c (fun cs hcs x hx =>
      have hlt : sizeOf x < sizeOf (Node.mk nm r u c) := by
        subst hcs
        have h1 := List.sizeOf_lt_of_mem hx
        simp only [Node.mk.sizeOf_spec, Option.some.sizeOf_spec]
        omega
      Node.strongInduction h x)
termination_by n => sizeOf n
decreasing_by exact hlt

theorem wrapChild_resourceBytes (g : String) (c : RootNodeContainer) :
    (wrapChild g c).resourceBytes = c.node.resourceBytes := by
  unfold wrapChild
  cases c.node.children with
  | none => rfl
  | some cs =>
      by_cases hg : g = "scripts" <;> simp [hg, Node.resourceBytes]

theorem wrapChild_unusedBytes (g : String) (c : RootNodeContainer) :
    (wrapChild g c).unusedBytes = c.node.unusedBytes := by
  unfold wrapChild
  cases c.node.children with
  | none => rfl
  | some cs =>
      by_cases hg : g = "scripts" <;> simp [hg, Node.unusedBytes]

theorem foldl_add_left_eq_sum {α : Type} (f : α → Nat) (l : List α)
    (a : Nat) :
    l.foldl (fun acc x => f x + acc) a = a + (l.map f).sum := by
  induction l generalizing a with
  | nil => simp
  | cons x xs ih => simp only [List.foldl_cons, List.map_cons, List.sum_cons, ih]; omega

/-- The byte total of the synthetic root is the sum of the containers'
root bytes (shared by several claims). -/
theorem createRootNodeForGroup_resourceBytes (documentUrl group : String)
    (rootNodes : List RootNodeContainer) :
    (createRootNodeForGroup documentUrl rootNodes group).resourceBytes
      = (rootNodes.map (fun c => c.node.resourceBytes)).sum := by
  show (rootNodes.map (wrapChild group)).foldl
      (fun acc cur => cur.resourceBytes + acc) 0 = _
  rw [foldl_add_left_eq_sum, List.map_map, Nat.zero_add]
  exact congrArg List.sum
    (List.map_congr_left (fun c _ => wrapChild_resourceBytes group c))

/-- The unused-byte total of the synthetic root, with a missing
`unusedBytes` counted as 0. -/
theorem createRootNodeForGroup_unusedBytes (documentUrl group : String)
    (rootNodes : List RootNodeContainer) :
    (createRootNodeForGroup documentUrl rootNodes group).unusedBytes
      = some ((rootNodes.map (fun c => c.node.unusedBytes.getD 0)).sum) := by
  show some ((rootNodes.map (wrapChild group)).foldl
      (fun acc cur => cur.unusedBytes.getD 0 + acc) 0) = _
  rw [foldl_add_left_eq_sum, List.map_map, Nat.zero_add]
  exact congrArg (fun s => some (List.sum s))
    (List.map_congr_left (fun c _ => by
      simp only [Function.comp_apply, wrapChild_unusedBytes]))

/-!
## Sample data (concrete instances for witnesses)
-/

/-- Containers with byte totals `[10, 20, 5]`, as in the spec's testable
property. -/
def sampleContainers : List RootNodeContainer :=
  [⟨"a.js", Node.mk "a.js" 10 none none⟩,
   ⟨"b.js", Node.mk "b.js" 20 (some 4) none⟩,
   ⟨"c.js", Node.mk "c.js" 5 none none⟩]

/-- A container whose node has no `children` field. -/
def sampleLeafContainer : RootNodeContainer :=
  ⟨"lib.js", Node.mk "inline" 1 none none⟩

/-- A container whose node has a `children` field (a bundle). -/
def sampleBundleContainer : RootNodeContainer :=
  ⟨"bundle.js", Node.mk "bundle-root" 2 (some 1)
    (some [Node.mk "mod" 2 none none])⟩

/-!
## Claims about the aggregator
-/

/-- C1: for every sequence of root-node containers,
`createRootNodeForGroup` returns a synthetic root whose `resourceBytes`
is the sum over the containers of the container node's `resourceBytes`
and whose `unusedBytes` is the sum of the container nodes' `unusedBytes`
with a missing value counted as 0; in particular containers with byte
totals `[10, 20, 5]` yield a synthetic root with `resourceBytes = 35`. -/
theorem c1_createRootNodeForGroup_sums (documentUrl group : String)
    (rootNodes : List RootNodeContainer) :
    (createRootNodeForGroup documentUrl rootNodes group).resourceBytes
        = (rootNodes.map (fun c => c.node.resourceBytes)).sum
      ∧ (createRootNodeForGroup documentUrl rootNodes group).unusedBytes
        = some ((rootNodes.map (fun c => c.node.unusedBytes.getD 0)).sum)
      ∧ (createRootNodeForGroup documentUrl sampleContainers group).resourceBytes
        = 35 :=
  ⟨createRootNodeForGroup_resourceBytes documentUrl group rootNodes,
   createRootNodeForGroup_unusedBytes documentUrl group rootNodes,
   rfl⟩

/-- C2: aggregating an empty sequence of containers does not throw (the
embedding is a total function) and yields a synthetic root with
`resourceBytes = 0`, `unusedBytes = 0` and an empty child list. -/
theorem c2_createRootNodeForGroup_empty (documentUrl group : String) :
    createRootNodeForGroup documentUrl [] group
      = Node.mk documentUrl 0 (some 0) (some []) := rfl

/-- C3: the children of the synthetic root appear in container order; the
`i`-th child is the `i`-th container's node itself when that node has no
`children` field, and otherwise a wrapper node carrying the container's
name, the node's `resourceBytes` and `unusedBytes`, and that node as its
only child. -/
theorem c3_createRootNodeForGroup_children (documentUrl : String)
    (rootNodes : List RootNodeContainer) (i : Nat)
    (c : RootNodeContainer) (hc : rootNodes.get? i = some c) :
    ∃ ch, (createRootNodeForGroup documentUrl rootNodes "scripts").children
        = some ch
      ∧ ch.length = rootNodes.length
      ∧ (c.node.children = none → ch.get? i = some c.node)
      ∧ (∀ cs, c.node.children = some cs →
          ch.get? i = some (Node.mk c.name c.node.resourceBytes
            c.node.unusedBytes (some [c.node]))) := by
  refine ⟨rootNodes.map (wrapChild "scripts"), rfl, by simp, ?_, ?_⟩
  · intro h
    have hmap : (rootNodes.map (wrapChild "scripts")).get? i
        = (rootNodes.get? i).map (wrapChild "scripts") := by
      simp [List.get?_eq_getElem?]
    rw [hmap, hc]
    simp [wrapChild, h]
  · intro cs hcs
    have hmap : (rootNodes.map (wrapChild "scripts")).get? i
        = (rootNodes.get? i).map (wrapChild "scripts") := by
      simp [List.get?_eq_getElem?]
    rw [hmap, hc]
    simp [wrapChild, hcs]

/-- Witness for C3 at a concrete input: the second container of
`[sampleLeafContainer, sampleBundleContainer]` has a `children` field, so
the second child of the synthetic root is the wrapper node. -/
theorem c3_createRootNodeForGroup_children_witness :
    ∃ ch, (createRootNodeForGroup "https://example.com"
          [sampleLeafContainer, sampleBundleContainer] "scripts").children
        = some ch
      ∧ ch.length = [sampleLeafContainer, sampleBundleContainer].length
      ∧ (sampleBundleContainer.node.children = none →
          ch.get? 1 = some sampleBundleContainer.node)
      ∧ (∀ cs, sampleBundleContainer.node.children = some cs →
          ch.get? 1 = some (Node.mk sampleBundleContainer.name
            sampleBundleContainer.node.resourceBytes
            sampleBundleContainer.node.unusedBytes
            (some [sampleBundleContainer.node]))) :=
  c3_createRootNodeForGroup_children "https://example.com"
    [sampleLeafContainer, sampleBundleContainer] 1 sampleBundleContainer rfl

/-!
## Claims about the colorizer
-/

theorem getHue_snd_seen (palette : List Nat) (s : HasherState) (k : String) :
    k ∈ ((getHue palette s k).2).seen := by
  by_cases h : k ∈ s.seen <;> simp [getHue, h]

theorem getHue_fst_of_mem (palette : List Nat) (s : HasherState) (k : String)
    (h : k ∈ s.seen) :
    (getHue palette s k).1 = palette.get? (s.seen.indexOf k) := by
  simp [getHue, h]

theorem getHue_fst_eq_indexOf (palette : List Nat) (s : HasherState)
    (k : String) :
    (getHue palette s k).1
      = palette.get? (((getHue palette s k).2).seen.indexOf k) := by
  by_cases h : k ∈ s.seen
  · simp [getHue, h]
  · simp only [getHue, h, if_false]
    rw [List.indexOf_append_of_not_mem h, List.indexOf_cons_self,
      Nat.add_zero]

theorem runHueCalls_seen_extends (palette : List Nat) (s : HasherState)
    (ks : List String) :
    ∃ t, (runHueCalls palette s ks).seen = s.seen ++ t := by
  induction ks generalizing s with
  | nil => exact ⟨[], by simp [runHueCalls]⟩
  | cons k ks ih =>
      rcases ih ((getHue palette s k).2) with ⟨t, ht⟩
      by_cases h : k ∈ s.seen
      · refine ⟨t, ?_⟩
        rw [runHueCalls, List.foldl_cons, ← runHueCalls]
        rw [ht]
        simp [getHue, h]
      · refine ⟨k :: t, ?_⟩
        rw [runHueCalls, List.foldl_cons, ← runHueCalls]
        rw [ht]
        simp [getHue, h]

/-- C4: the hue assignment is idempotent over the lifetime of a viewer
instance: however many other calls happen before and in between, two
`getHue` calls for the same key return the same hue (or `none` both
times). -/
theorem c4_getHue_idempotent (palette : List Nat) (ks1 ks2 : List String)
    (k : String) :
    (getHue palette
        (runHueCalls palette
          ((getHue palette (runHueCalls palette emptyHasher ks1) k).2) ks2)
        k).1
      = (getHue palette (runHueCalls palette emptyHasher ks1) k).1 := by
  set s1 := runHueCalls palette emptyHasher ks1 with hs1
  set s1' := (getHue palette s1 k).2 with hs1'
  have hmem : k ∈ s1'.seen := getHue_snd_seen palette s1 k
  rcases runHueCalls_seen_extends palette s1' ks2 with ⟨t, ht⟩
  have hmem2 : k ∈ (runHueCalls palette s1' ks2).seen := by
    rw [ht]; exact List.mem_append_left t hmem
  rw [getHue_fst_of_mem palette _ k hmem2, ht,
    List.indexOf_append_of_mem hmem]
  exact (getHue_fst_eq_indexOf palette s1 k).symm

theorem hueResults_fresh_get (palette : List Nat) (ks : List String) :
    ∀ (s : HasherState), ks.Nodup → (∀ k ∈ ks, k ∉ s.seen) →
      ∀ i, i < ks.length →
        (hueResults palette s ks).get? i
          = some (palette.get? (s.seen.length + i)) := by
  induction ks with
  | nil => intro s _ _ i hi; simp at hi
  | cons k ks ih =>
      intro s hnd hfresh i hi
      have hk : k ∉ s.seen := hfresh k (List.mem_cons_self k ks)
      have hstep : getHue palette s k
          = (palette.get? s.seen.length, ⟨s.seen ++ [k]⟩) := by
        simp [getHue, hk]
      cases i with
      | zero => simp [hueResults, hstep]
      | succ i =>
          have h1 : (hueResults palette s (k :: ks)).get? (i + 1)
              = (hueResults palette (getHue palette s k).2 ks).get? i := by
            simp [hueResults]
          rw [h1, hstep]
          have hfresh' : ∀ k' ∈ ks, k' ∉ (s.seen ++ [k]) := by
            intro k' hk'
            rw [List.mem_append, List.mem_singleton]
            rintro (hin | he)
            · exact hfresh k' (List.mem_cons_of_mem k hk') hin
            · exact (List.nodup_cons.mp hnd).1 (he ▸ hk')
          rw [ih ⟨s.seen ++ [k]⟩ (List.nodup_cons.mp hnd).2 hfresh' i
            (by simpa using Nat.lt_of_succ_lt_succ hi)]
          congr 2
          simp only [List.length_append, List.length_cons, List.length_nil]
          omega

/-- C5: from a fresh hasher, distinct keys receive the palette entries in
first-seen order (the `i`-th distinct key gets the `i`-th palette entry);
past the end of the palette the result is `none`, and `updateColors`
paints a hue-less node with white background and black text. -/
theorem c5_first_seen_palette_order (palette : List Nat) (ks : List String)
    (hnd : ks.Nodup) (i : Nat) (hi : i < ks.length) :
    (hueResults palette emptyHasher ks).get? i = some (palette.get? i)
      ∧ (palette.length ≤ i → palette.get? i = none)
      ∧ updateColorsPaint none = ("white", "black") := by
  refine ⟨?_, ?_, rfl⟩
  · have h := hueResults_fresh_get palette ks emptyHasher hnd
      (by intro k _; simp [emptyHasher]) i hi
    simpa [emptyHasher] using h
  · intro h
    exact List.get?_eq_none.mpr h

/-- Witness for C5 at a concrete input: with the two-entry palette
`[10, 20]` and three distinct keys, the third key (past the end of the
palette) gets no hue and the white/black fallback. -/
theorem c5_first_seen_palette_order_witness :
    (hueResults [10, 20] emptyHasher ["a", "b", "c"]).get? 2
        = some ([10, 20].get? 2)
      ∧ ([10, 20].length ≤ 2 → [10, 20].get? 2 = none)
      ∧ updateColorsPaint none = ("white", "black") :=
  c5_first_seen_palette_order [10, 20] ["a", "b", "c"] (by decide) 2
    (by decide)

/-!
## Claims about initialization and the message handler
-/

/-- C6: the constructor's data-validation step throws (the
`missing script-treemap-data` initialization error) if and only if the
audit's `details` are missing or lack the `treemapData` field; on all
other inputs it does not throw. -/
theorem c6_constructor_throws_iff (lhr : LHResult) :
    (∃ e, constructorValidate lhr = .error e)
      ↔ (lhr.audits "script-treemap-data").details = none
        ∨ ∃ d, (lhr.audits "script-treemap-data").details = some d
            ∧ d.treemapData = none := by
  cases h : (lhr.audits "script-treemap-data").details with
  | none => simp [constructorValidate, h]
  | some d =>
      cases hd : d.treemapData with
      | none => simp [constructorValidate, h, hd]
      | some td => simp [constructorValidate, h, hd]

/-- C7: the cross-window message handler reaches `init` exactly when the
message comes from the opener window and its data holds an `lhr` with a
(truthy) `requestedUrl`; any message failing one of the checks never
initializes the viewer. -/
theorem c7_message_handler_inits_iff (source opener : Nat)
    (data : TreemapOptions) :
    messageHandlerInits source opener data = true
      ↔ source = opener
        ∧ ∃ lhr, data.lhr = some lhr ∧ lhr.requestedUrl ≠ "" := by
  unfold messageHandlerInits
  by_cases h : source = opener
  · cases hl : data.lhr with
    | none => simp [h, hl]
    | some lhr => simp [h, hl]
  · simp [h]

/-!
## Claim about hue keys in `updateColors`
-/

/-- A concrete realization of `nodeToRootNodeMap` for the sample bundle
container (node names in the sample tree are distinct, so a lookup by
name realizes the object-identity map). -/
def sampleRootNodeMap : Node → Option RootNodeContainer := fun n =>
  if n.name = "bundle-root" ∨ n.name = "mod" then some sampleBundleContainer
  else none

/-- C9: under the constructor's registration (`RegisteredMap`), every
node of a container's tree uses that container's name as its hue key; a
wrapper node built by `createRootNodeForGroup` is absent from the map but
carries the container's name, so its hue key is also the container's
name; and the synthetic root (absent from the map) uses the document URL
as its hue key. -/
theorem c9_hue_keys (containers : List RootNodeContainer)
    (m : Node → Option RootNodeContainer) (hm : RegisteredMap containers m)
    (documentUrl : String) :
    (∀ c ∈ containers, ∀ n ∈ c.node.dfsList, hueKey m n = c.name)
      ∧ (∀ c ∈ containers, ∀ cs, c.node.children = some cs →
          m (wrapChild "scripts" c) = none →
          hueKey m (wrapChild "scripts" c) = c.name)
      ∧ (m (createRootNodeForGroup documentUrl containers "scripts") = none →
          hueKey m (createRootNodeForGroup documentUrl containers "scripts")
            = documentUrl) := by
  refine ⟨?_, ?_, ?_⟩
  · intro c hc n hn
    simp [hueKey, hm c hc n hn]
  · intro c hc cs hcs hnone
    unfold hueKey
    rw [hnone]
    simp [wrapChild, hcs, Node.name]
  · intro hnone
    unfold hueKey
    rw [hnone]
    simp [createRootNodeForGroup, Node.name]

/-- Witness for C9 at a concrete input: a single bundle container with
the name-based realization of the node-to-container map. -/
theorem c9_hue_keys_witness :
    (∀ c ∈ [sampleBundleContainer], ∀ n ∈ c.node.dfsList,
        hueKey sampleRootNodeMap n = c.name)
      ∧ (∀ c ∈ [sampleBundleContainer], ∀ cs, c.node.children = some cs →
          sampleRootNodeMap (wrapChild "scripts" c) = none →
          hueKey sampleRootNodeMap (wrapChild "scripts" c) = c.name)
      ∧ (sampleRootNodeMap (createRootNodeForGroup "https://example.com"
            [sampleBundleContainer] "scripts") = none →
          hueKey sampleRootNodeMap (createRootNodeForGroup
            "https://example.com" [sampleBundleContainer] "scripts")
            = "https://example.com") := by
  refine c9_hue_keys [sampleBundleContainer] sampleRootNodeMap ?_
    "https://example.com"
  intro c hc n hn
  rw [List.mem_singleton] at hc
  subst hc
  simp only [sampleBundleContainer, Node.dfsList_some, Node.dfsList_none,
    List.flatMap_cons, List.flatMap_nil, List.append_nil, List.mem_cons,
    List.mem_singleton, List.not_mem_nil, or_false] at hn
  rcases hn with h | h <;> subst h <;> simp [sampleRootNodeMap, Node.name]

/-!
## Claim relating `renderViewModeOptions` to the aggregator
-/

theorem sum_map_flatMap {α β : Type} (l : List α) (g : α → List β)
    (f : β → Nat) :
    ((l.flatMap g).map f).sum = (l.map (fun a => ((g a).map f).sum)).sum := by
  induction l with
  | nil => simp
  | cons x xs ih => simp [ih]

theorem foldl_leaf_eq (l : List Node) (b : Nat) :
    l.foldl (fun bb x => if x.children.isSome then bb else bb + x.resourceBytes) b
      = b + ((l.filter (fun x => x.children.isNone)).map Node.resourceBytes).sum := by
  induction l generalizing b with
  | nil => simp
  | cons x xs ih =>
      cases hx : x.children with
      | none =>
          rw [List.foldl_cons, List.filter_cons]
          simp only [hx, Option.isSome_none, Option.isNone_none, if_false,
            if_true, Bool.false_eq_true, List.map_cons, List.sum_cons]
          rw [ih, Nat.add_assoc]
      | some cs =>
          rw [List.foldl_cons, List.filter_cons]
          simp only [hx, Option.isSome_some, Option.isNone_some, if_true,
            Bool.false_eq_true, if_false]
          exact ih (b)

theorem SumInvariant_child {nm : String} {r : Nat} {u : Option Nat}
    {cs : List Node} (h : SumInvariant (Node.mk nm r u (some cs)))
    {c : Node} (hc : c ∈ cs) : SumInvariant c :=
  fun x hx cs' hcs' => h x (Node.mem_dfsList_child hc hx nm r u) cs' hcs'

/-- Under the parent-sum invariant, the leaf-only byte total of a tree
equals its root's `resourceBytes`. -/
theorem leaf_total_eq_resourceBytes :
    ∀ n : Node, SumInvariant n →
      ((n.dfsList.filter (fun x => x.children.isNone)).map
        Node.resourceBytes).sum = n.resourceBytes := by
  refine Node.strongInduction ?_
  intro nm r u c ih hinv
  cases c with
  | none =>
      rw [Node.dfsList_none]
      simp [Node.children, Node.resourceBytes]
  | some cs =>
      rw [Node.dfsList_some, List.filter_cons]
      have hhead : ((Node.mk nm r u (some cs)).children).isNone = false := rfl
      simp only [hhead, Bool.false_eq_true, if_false]
      rw [List.filter_flatMap, sum_map_flatMap]
      have hmap : cs.map (fun a =>
            ((a.dfsList.filter (fun x => x.children.isNone)).map
              Node.resourceBytes).sum)
          = cs.map Node.resourceBytes :=
        List.map_congr_left (fun a ha =>
          ih cs rfl a ha (SumInvariant_child hinv ha))
      rw [hmap]
      have hroot := hinv (Node.mk nm r u (some cs))
        (Node.self_mem_dfsList _) cs rfl
      rw [← hroot]

theorem viewModeBytes_aux (l : List RootNodeContainer) (b : Nat)
    (h : ∀ c ∈ l, SumInvariant c.node) :
    l.foldl (fun bytes c => c.node.dfsList.foldl
        (fun bb x => if x.children.isSome then bb else bb + x.resourceBytes)
        bytes) b
      = b + (l.map (fun c => c.node.resourceBytes)).sum := by
  induction l generalizing b with
  | nil => simp
  | cons c cs ih =>
      rw [List.foldl_cons, foldl_leaf_eq,
        leaf_total_eq_resourceBytes c.node (h c (List.mem_cons_self c cs)),
        ih (b + c.node.resourceBytes)
          (fun c' hc' => h c' (List.mem_cons_of_mem c hc')),
        List.map_cons, List.sum_cons, Nat.add_assoc]

/-- C10: `renderViewModeOptions` totals `resourceBytes` over leaf nodes
only; when every node with a `children` field carries the sum of its
children's `resourceBytes`, this leaf-only total equals the
`resourceBytes` of the synthetic root built by `createRootNodeForGroup`
from the same containers. -/
theorem c10_view_mode_total (documentUrl : String)
    (containers : List RootNodeContainer)
    (hinv : ∀ c ∈ containers, SumInvariant c.node) :
    viewModeBytes containers
      = (createRootNodeForGroup documentUrl containers "scripts").resourceBytes := by
  rw [createRootNodeForGroup_resourceBytes]
  unfold viewModeBytes
  rw [viewModeBytes_aux containers 0 hinv, Nat.zero_add]

/-- Witness for C10 at a concrete input: a leaf container and a bundle
container whose root carries the sum of its children's bytes. -/
theorem c10_view_mode_total_witness :
    viewModeBytes [sampleLeafContainer, sampleBundleContainer]
      = (createRootNodeForGroup "https://example.com"
          [sampleLeafContainer, sampleBundleContainer] "scripts").resourceBytes := by
  refine c10_view_mode_total "https://example.com" _ ?_
  intro c hc
  simp only [List.mem_cons, List.not_mem_nil, or_false, List.mem_singleton] at hc
  rcases hc with h | h <;> subst h <;> intro x hx cs hcs
  · simp only [sampleLeafContainer, Node.dfsList_none, List.mem_singleton] at hx
    subst hx
    simp [Node.children] at hcs
  · simp only [sampleBundleContainer, Node.dfsList_some, Node.dfsList_none,
      List.flatMap_cons, List.flatMap_nil, List.append_nil, List.mem_cons,
      List.not_mem_nil, or_false, List.mem_singleton] at hx
    rcases hx with h | h <;> subst h
    · simp only [Node.children, Option.some.injEq] at hcs
      subst hcs
      simp [Node.resourceBytes]
    · simp [Node.children] at hcs

/-!
## The frame claim: `createRootNodeForGroup` does not mutate its inputs
-/

theorem createChildH_fst (g : String) (store : Store)
    (c : HRootNodeContainer) :
    ∃ t, (createChildH g store c).1 = store ++ t := by
  simp only [createChildH]
  cases (lookupH store c.node).children with
  | none => exact ⟨[], by simp⟩
  | some cs =>
      by_cases hg : g = "scripts"
      · exact ⟨[⟨c.name, (lookupH store c.node).resourceBytes,
          (lookupH store c.node).unusedBytes, some [c.node]⟩],
          by simp [hg]⟩
      · exact ⟨[], by simp [hg]⟩

theorem createChildH_snd (g : String) (store : Store)
    (c : HRootNodeContainer) :
    (createChildH g store c).2 = c.node
      ∨ (createChildH g store c).2 = store.length := by
  simp only [createChildH]
  cases (lookupH store c.node).children with
  | none => exact Or.inl rfl
  | some cs =>
      by_cases hg : g = "scripts"
      · exact Or.inr (by simp [hg])
      · exact Or.inl (by simp [hg])

theorem createChildrenH_fst (g : String) :
    ∀ (cs : List HRootNodeContainer) (store : Store),
      ∃ t, (createChildrenH g store cs).1 = store ++ t := by
  intro cs
  induction cs with
  | nil => intro store; exact ⟨[], by simp [createChildrenH]⟩
  | cons c cs ih =>
      intro store
      rcases createChildH_fst g store c with ⟨t1, h1⟩
      rcases ih ((createChildH g store c).1) with ⟨t2, h2⟩
      refine ⟨t1 ++ t2, ?_⟩
      simp only [createChildrenH]
      rw [h2, h1, List.append_assoc]

theorem createChildrenH_refs (g : String) :
    ∀ (cs : List HRootNodeContainer) (store : Store),
      ∀ r ∈ (createChildrenH g store cs).2,
        (∃ c ∈ cs, r = c.node) ∨ store.length ≤ r := by
  intro cs
  induction cs with
  | nil => intro store r hr; simp [createChildrenH] at hr
  | cons c cs ih =>
      intro store r hr
      simp only [createChildrenH, List.mem_cons] at hr
      rcases hr with h | h
      · subst h
        rcases createChildH_snd g store c with h2 | h2
        · exact Or.inl ⟨c, List.mem_cons_self c cs, h2⟩
        · exact Or.inr (Nat.le_of_eq h2.symm)
      · rcases ih ((createChildH g store c).1) r h with ⟨c', hc', he⟩ | hle
        · exact Or.inl ⟨c', List.mem_cons_of_mem c hc', he⟩
        · rcases createChildH_fst g store c with ⟨t, ht⟩
          refine Or.inr (Nat.le_trans ?_ hle)
          rw [ht]
          simp

/-- C8: against the object store, `createRootNodeForGroup` leaves every
pre-existing object (every container and every node reachable from one)
untouched — the prior store is a prefix of the resulting store — and the
synthetic root is a fresh allocation whose children are each either an
input container's own node or a freshly allocated wrapper. -/
theorem c8_no_input_mutation (documentUrl group : String) (store : Store)
    (rootNodes : List HRootNodeContainer) :
    (createRootNodeForGroupH documentUrl store rootNodes group).1.take
        store.length = store
      ∧ store.length
          ≤ (createRootNodeForGroupH documentUrl store rootNodes group).2
      ∧ ∀ r ∈ ((lookupH
            (createRootNodeForGroupH documentUrl store rootNodes group).1
            (createRootNodeForGroupH documentUrl store rootNodes group).2
          ).children).getD [],
          (∃ c ∈ rootNodes, r = c.node) ∨ store.length ≤ r := by
  rcases createChildrenH_fst group rootNodes store with ⟨t, ht⟩
  have hfst : (createRootNodeForGroupH documentUrl store rootNodes group).1
      = (createChildrenH group store rootNodes).1
        ++ [⟨documentUrl,
             (createChildrenH group store rootNodes).2.foldl
               (fun acc r => (lookupH (createChildrenH group store rootNodes).1
                 r).resourceBytes + acc) 0,
             some ((createChildrenH group store rootNodes).2.foldl
               (fun acc r => (lookupH (createChildrenH group store rootNodes).1
                 r).unusedBytes.getD 0 + acc) 0),
             some (createChildrenH group store rootNodes).2⟩] := rfl
  have hsnd : (createRootNodeForGroupH documentUrl store rootNodes group).2
      = (createChildrenH group store rootNodes).1.length := rfl
  refine ⟨?_, ?_, ?_⟩
  · rw [hfst, ht, List.append_assoc]
    exact List.take_left store _
  · rw [hsnd, ht]
    simp
  · intro r hr
    have hroot : lookupH
        (createRootNodeForGroupH documentUrl store rootNodes group).1
        (createRootNodeForGroupH documentUrl store rootNodes group).2
      = ⟨documentUrl,
         (createChildrenH group store rootNodes).2.foldl
           (fun acc r => (lookupH (createChildrenH group store rootNodes).1
             r).resourceBytes + acc) 0,
         some ((createChildrenH group store rootNodes).2.foldl
           (fun acc r => (lookupH (createChildrenH group store rootNodes).1
             r).unusedBytes.getD 0 + acc) 0),
         some (createChildrenH group store rootNodes).2⟩ := by
      rw [hfst, hsnd, lookupH]
      simp [List.get?_eq_getElem?]
    rw [hroot] at hr
    simp only [Option.getD_some] at hr
    exact createChildrenH_refs group rootNodes store r hr

/-- A concrete two-object store: a bundle root (reference 0) with one
child module (reference 1). -/
def demoStore : Store :=
  [⟨"bundle-root", 2, some 1, some [1]⟩, ⟨"mod", 2, none, none⟩]

/-- One container pointing at the bundle root. -/
def demoHContainers : List HRootNodeContainer := [⟨"bundle.js", 0⟩]

/-- Witness for C8 at a concrete input: after aggregating the demo store,
the two pre-existing objects are untouched, the synthetic root is fresh,
and its single child (the wrapper, reference 2) is a fresh allocation. -/
theorem c8_no_input_mutation_witness :
    (createRootNodeForGroupH "https://example.com" demoStore demoHContainers
        "scripts").1.take demoStore.length = demoStore
      ∧ demoStore.length
          ≤ (createRootNodeForGroupH "https://example.com" demoStore
              demoHContainers "scripts").2
      ∧ ((∃ c ∈ demoHContainers, 2 = c.node) ∨ demoStore.length ≤ 2) := by
  have h := c8_no_input_mutation "https://example.com" "scripts" demoStore
    demoHContainers
  exact ⟨h.1, h.2.1, h.2.2 2 (by decide)⟩
